import Mathlib

/-!
Verification of `twisted-wsgi-max-requests`
(`src/max_requests/_implementation.py`).

Python strings are embedded as `List Char`; Python `int` as `Int`.
Each definition below is a shallow embedding of the function of the same
name in the source (or of the Python builtin it calls).
-/

namespace MaxRequests

/-! ### Python string/int primitives used by the source

`ListenersCollection.toEnvironment` uses `str.join` and `str(fileno)`;
`ListenersCollection.fromEnvironment` uses `str.split`, `str.partition`
and `int(...)`.  We embed those builtins over `List Char`. -/

/-- `str.join` with a single-character separator: Python
`sep.join(fields)`. -/
def joinSep (sep : Char) : List (List Char) → List Char
  | [] => []
  | [f] => f
  | f :: fs => f ++ sep :: joinSep sep fs

/-- `str.split` with a single-character separator argument: Python
`s.split(sep)`.  Splits at every occurrence; `"".split(sep) == [""]`. -/
def splitSep (sep : Char) : List Char → List (List Char)
  | [] => [[]]
  | c :: rest =>
    match splitSep sep rest with
    | [] => [[]]
    | fld :: flds =>
      if c = sep then [] :: fld :: flds else (c :: fld) :: flds

/-- `str.partition` with a single-character separator: Python
`s.partition(sep)` returns `(before, sep, after)` splitting at the FIRST
occurrence, or `(s, "", "")` when `sep` is absent.  We return
`(before, after, found)`; when `found = false` the `after` part is `[]`,
matching Python's empty third component. -/
def pyPartition (sep : Char) : List Char → List Char × List Char × Bool
  | [] => ([], [], false)
  | c :: rest =>
    if c = sep then ([], rest, true)
    else
      let r := pyPartition sep rest
      (c :: r.1, r.2.1, r.2.2)

/-- Python whitespace characters stripped by `int(...)` (ASCII part). -/
def isPyWs (c : Char) : Bool :=
  c = ' ' || c = '\t' || c = '\n' || c = '\x0d' || c = '\x0b' || c = '\x0c'

/-- Digit-string body of a Python integer literal after its first digit:
decimal digits, with single underscores permitted between digits
(accumulator form).  Mirrors `int()`'s grammar after sign and whitespace
handling: no trailing underscore, no doubled underscore. -/
def pyDigitsAux : List Char → Nat → Option Nat
  | [], acc => some acc
  | c :: rest, acc =>
    if c = '_' then
      match rest with
      | [] => none
      | c2 :: rest2 =>
        if c2.isDigit then pyDigitsAux rest2 (acc * 10 + (c2.toNat - 48))
        else none
    else if c.isDigit then pyDigitsAux rest (acc * 10 + (c.toNat - 48))
    else none

/-- Parse a nonempty digit string (underscore-separated groups allowed,
no leading underscore), as Python `int` does after the optional sign. -/
def pyDigits : List Char → Option Nat
  | [] => none
  | c :: rest =>
    if c.isDigit then pyDigitsAux rest (c.toNat - 48) else none

/-- The optional sign of a Python integer literal, then digits. -/
def pySigned : List Char → Option Int
  | [] => none
  | c :: rest =>
    if c = '-' then (pyDigits rest).map (fun n => -(n : Int))
    else if c = '+' then (pyDigits rest).map (fun n => (n : Int))
    else (pyDigits (c :: rest)).map (fun n => (n : Int))

/-- Python `int(s)` on a decimal string: strip whitespace from both
ends, accept an optional sign, then a digit string; `none` models the
`ValueError` that `int` raises otherwise. -/
def pyInt (s : List Char) : Option Int :=
  pySigned ((s.dropWhile isPyWs).reverse.dropWhile isPyWs).reverse

/-- Decimal digits of `n`, least significant first; `fuel` is a
structural bound (any `fuel > n` gives the digits of `n`). -/
def natDigitsRevAux : Nat → Nat → List Char
  | 0, _ => []
  | fuel + 1, n =>
    if n < 10 then [Char.ofNat (48 + n)]
    else Char.ofNat (48 + n % 10) :: natDigitsRevAux fuel (n / 10)

/-- Python `str(n)` for a nonnegative integer. -/
def pyStrNat (n : Nat) : List Char := (natDigitsRevAux (n + 1) n).reverse

/-- Python `str(i)` for an arbitrary integer. -/
def pyStr : Int → List Char
  | Int.ofNat n => pyStrNat n
  | Int.negSucc m => '-' :: pyStrNat (m + 1)

/-! ### ListenersCollection (`_implementation.py`, class ListenersCollection) -/

/-- `ListenersCollection._unitSeparator = "\x1f"`. -/
def unitSeparator : Char := '\x1f'

/-- `ListenersCollection._recordSeparator = "\x1e"`. -/
def recordSeparator : Char := '\x1e'

/-- `ListenersCollection._variable = "_TWISTED_ADOPTABLE_LISTENERS"`. -/
def handoffVariable : List Char := "_TWISTED_ADOPTABLE_LISTENERS".toList

/-- The `ValueError` raised by `int(...)` inside `fromEnvironment`
on a malformed record (the spec's `MalformedHandoffRecord`). -/
inductive MalformedHandoffRecord where
  | valueError : MalformedHandoffRecord
deriving DecidableEq, Repr

/-- `ListenersCollection.toEnvironment`: the value of the handoff
environment variable — records joined by the record separator, each
record `description ++ US ++ str(fileno)`. -/
def toEnvironment (pairs : List (List Char × Int)) : List Char :=
  joinSep recordSeparator
    (pairs.map (fun p => p.1 ++ unitSeparator :: pyStr p.2))

/-- One step of the comprehension in `fromEnvironment`:
`record.partition(US)` then `int(fileno)`. -/
def decodeRecord (record : List Char) : Except MalformedHandoffRecord (List Char × Int) :=
  let p := pyPartition unitSeparator record
  match pyInt p.2.1 with
  | some n => Except.ok (p.1, n)
  | none => Except.error MalformedHandoffRecord.valueError

/-- The full list comprehension of `fromEnvironment`: left-to-right, the
first `ValueError` propagates. -/
def decodeRecords : List (List Char) → Except MalformedHandoffRecord (List (List Char × Int))
  | [] => Except.ok []
  | r :: rs =>
    match decodeRecord r with
    | Except.error e => Except.error e
    | Except.ok p =>
      match decodeRecords rs with
      | Except.error e => Except.error e
      | Except.ok ps => Except.ok (p :: ps)

/-- `ListenersCollection.fromEnvironment`: `environment.get(variable)`
is `none` when absent; `if value:` treats `None` and `""` alike as
empty, yielding the empty collection. -/
def fromEnvironment (valueOpt : Option (List Char)) :
    Except MalformedHandoffRecord (List (List Char × Int)) :=
  match valueOpt with
  | none => Except.ok []
  | some v =>
    if v = [] then Except.ok []
    else decodeRecords (splitSep recordSeparator v)

/-- The record built by `toEnvironment` for one pair (the body of the
generator expression in `toEnvironment`). -/
def encodeRecord (p : List Char × Int) : List Char :=
  p.1 ++ unitSeparator :: pyStr p.2

/-- Big-endian accumulator fold giving the value of a digit string
(specification device for the parsing lemmas). -/
def digitsFold (acc : Nat) (cs : List Char) : Nat :=
  cs.foldl (fun a c => a * 10 + (c.toNat - 48)) acc

/-! ### MaximumRequestsResource (`_implementation.py`)

The class state is `_maximumRequests`, `_requests`, `_inFlight`,
`_stopping` and the `_notifications` list of pending Deferreds.  We track
the list by its length (`pendingNotifications`) together with the running
count of Deferreds that have been fired (`firedNotifications`).  Calls to
the injected `stopAccepting` (rebound by `makeService` to the listener
service's `stopAccepting`) are counted in `stopAcceptingCalls`, and
`reactor.stop()` is the `reactorStopped` flag. -/

structure GateState where
  maximumRequests : Int
  requests : Nat
  inFlight : Int
  stopping : Bool
  pendingNotifications : Nat
  firedNotifications : Nat
  stopAcceptingCalls : Nat
  reactorStopped : Bool
deriving DecidableEq, Repr

/-- `MaximumRequestsResource.__init__`. -/
def initResource (maximumRequests : Int) : GateState :=
  { maximumRequests := maximumRequests
    requests := 0
    inFlight := 0
    stopping := false
    pendingNotifications := 0
    firedNotifications := 0
    stopAcceptingCalls := 0
    reactorStopped := false }

/-- `MaximumRequestsResource._noPendingRequests`: stop the reactor if
`_stopping` is set. -/
def noPendingRequests (s : GateState) : GateState :=
  if s.stopping then { s with reactorStopped := true } else s

/-- `MaximumRequestsResource._decrementInFlight`: runs when a request's
own `notifyFinish` Deferred fires (success, disconnect or error);
`if not self._inFlight` is Python int truthiness, i.e. equality with 0. -/
def decrementInFlight (s : GateState) : GateState :=
  let s1 := { s with inFlight := s.inFlight - 1 }
  if s1.inFlight = 0 then noPendingRequests s1 else s1

/-- `MaximumRequestsResource.notifyFinish`: returns the updated state and
whether the Deferred handed back is already resolved
(`defer.succeed(None)`), so a subscriber fires immediately. -/
def notifyFinish (s : GateState) : GateState × Bool :=
  if s.stopping then (s, true)
  else ({ s with pendingNotifications := s.pendingNotifications + 1 }, false)

/-- `MaximumRequestsResource._finishing`: pop and fire every pending
notification Deferred. -/
def finishing (s : GateState) : GateState :=
  { s with
    firedNotifications := s.firedNotifications + s.pendingNotifications
    pendingNotifications := 0 }

/-- `MaximumRequestsResource.render`: count the request in flight, count
it against the quota, and on `_requests > _maximumRequests - 1` call
`stopAccepting`, set `_stopping`, fire `_finishing`; both branches end by
dispatching to `self.original.render(request)` and returning its
response (`app req`). -/
def render {α β : Type} (s : GateState) (app : α → β) (req : α) :
    GateState × β :=
  let s1 := { s with inFlight := s.inFlight + 1 }
  let s2 := { s1 with requests := s1.requests + 1 }
  if (s2.requests : Int) > s2.maximumRequests - 1 then
    let s3 := { s2 with stopAcceptingCalls := s2.stopAcceptingCalls + 1 }
    let s4 := finishing { s3 with stopping := true }
    (s4, app req)
  else (s2, app req)

/-- Reactor events touching the resource: a request being rendered, a
request completing (its `notifyFinish` Deferred firing
`_decrementInFlight`), and a new subscription to the resource's own
`notifyFinish`. -/
inductive Ev where
  | render : Ev
  | complete : Ev
  | subscribe : Ev
deriving DecidableEq, Repr

/-- One reactor event. -/
def step (s : GateState) : Ev → GateState
  | Ev.render => (render s (fun u : Unit => u) ()).1
  | Ev.complete => decrementInFlight s
  | Ev.subscribe => (notifyFinish s).1

/-- A run of the single-threaded reactor. -/
def run (s : GateState) (es : List Ev) : GateState := es.foldl step s

/-- The resource state right after `makeService`, which performs the one
`root.notifyFinish().addCallback(respawn)` subscription: the single
pending notification Deferred is the `respawn` hook, so
`firedNotifications` counts invocations of the handoff sequence. -/
def makeServiceGate (maximumRequests : Int) : GateState :=
  (notifyFinish (initResource maximumRequests)).1

/-- Invariant of reactor runs in which nothing beyond `makeService`
subscribes to the resource's `notifyFinish`. -/
def GateInv (s : GateState) : Prop :=
  s.firedNotifications + s.pendingNotifications = 1 ∧
    (s.stopping = true ↔ s.firedNotifications = 1)

/-! ### makeService: listener-set choice and successor spawn -/

/-- Which listener service `makeService` builds. -/
inductive ServiceChoice where
  | fresh : ServiceChoice
  | adopted : ServiceChoice
  | startupFailure : ServiceChoice
deriving DecidableEq, Repr

/-- `makeService`'s dispatch on `ListenersCollection.fromEnvironment`:
`if not(list(collection))` builds a `LivelyListenersService`
(fresh bind-and-listen), otherwise an `AdoptedListenersService`; a
`ValueError` from decoding aborts startup. -/
def chooseListeners (valueOpt : Option (List Char)) : ServiceChoice :=
  match fromEnvironment valueOpt with
  | Except.ok [] => ServiceChoice.fresh
  | Except.ok (_ :: _) => ServiceChoice.adopted
  | Except.error _ => ServiceChoice.startupFailure

/-- The observable arguments of the `subprocess.Popen` call in
`makeService.respawn`: the environment handed to the successor and the
`pass_fds` list of descriptors explicitly kept open across the spawn. -/
structure SpawnCall where
  childEnv : List Char → Option (List Char)
  passFds : List Int

/-- `makeService.respawn`: `environment = os.environ.copy()` then
`environment.update(collection.toEnvironment())` — `toEnvironment`
returns the one-entry mapping for the handoff variable, so the child
environment is the current one with that single key overwritten —
and `pass_fds=[fileno for _, fileno in collection]`. -/
def respawn (environment : List Char → Option (List Char))
    (pairs : List (List Char × Int)) : SpawnCall :=
  { childEnv := fun k =>
      if k = handoffVariable then some (toEnvironment pairs) else environment k
    passFds := pairs.map Prod.snd }

/-! ### LivelyListenersService / AdoptedListenersService

`stopAccepting` and `stopService` have verbatim identical bodies in the
two classes; one model covers both.  `stopAccepting` calls
`listener.stopReading()` on every listener (the fd stays open) and sets
`_released`; `stopService` is guarded by `if not self._released:` and
then only calls `twisted.application.service.Service.stopService`, which
merely clears the `running` flag — no path closes a listening
descriptor. -/

structure ListenersServiceState where
  released : Bool
  running : Bool
  listenersReading : Bool
  listenersClosed : Bool
deriving DecidableEq, Repr

/-- Service state at `startService`: accepting, nothing handed off. -/
def initListeners : ListenersServiceState :=
  { released := false, running := true
    listenersReading := true, listenersClosed := false }

/-- `stopAccepting` of either listener service. -/
def stopAccepting (s : ListenersServiceState) : ListenersServiceState :=
  { s with listenersReading := false, released := true }

/-- `stopService` of either listener service: when `_released` is unset
it falls through to `service.Service.stopService(self)`, which sets
`running = 0` and touches nothing else; when `_released` is set it does
nothing at all. -/
def stopService (s : ListenersServiceState) : ListenersServiceState :=
  if s.released = false then { s with running := false } else s

/-- The operations a reactor run can apply to a listener service. -/
inductive LOp where
  | stopAccepting : LOp
  | stopService : LOp
deriving DecidableEq, Repr

/-- Apply one listener-service operation. -/
def lstep (s : ListenersServiceState) : LOp → ListenersServiceState
  | LOp.stopAccepting => stopAccepting s
  | LOp.stopService => stopService s

/-- All states a listener service reaches from startup. -/
def lrun (ops : List LOp) : ListenersServiceState :=
  ops.foldl lstep initListeners

/-! ### Helper lemmas: decimal printing and parsing invert each other -/

theorem ofNat_digit_isDigit (r : Nat) (h : r < 10) :
    (Char.ofNat (48 + r)).isDigit = true := by
  interval_cases r <;> decide

theorem ofNat_digit_toNat (r : Nat) (h : r < 10) :
    (Char.ofNat (48 + r)).toNat = 48 + r := by
  interval_cases r <;> decide

theorem natDigitsRevAux_ne_nil (fuel n : Nat) (h : n < fuel) :
    natDigitsRevAux fuel n ≠ [] := by
  cases fuel with
  | zero => omega
  | succ f =>
    unfold natDigitsRevAux
    split <;> simp

theorem natDigitsRevAux_digits (fuel : Nat) :
    ∀ n, n < fuel → ∀ c ∈ natDigitsRevAux fuel n, c.isDigit = true := by
  induction fuel with
  | zero => intro n h; omega
  | succ f ih =>
    intro n h c hc
    unfold natDigitsRevAux at hc
    by_cases h10 : n < 10
    · rw [if_pos h10] at hc
      simp only [List.mem_singleton] at hc
      subst hc
      exact ofNat_digit_isDigit n h10
    · rw [if_neg h10] at hc
      rcases List.mem_cons.mp hc with h1 | h1
      · subst h1
        exact ofNat_digit_isDigit (n % 10) (Nat.mod_lt _ (by omega))
      · have hdiv : n / 10 < n := Nat.div_lt_self (by omega) (by omega)
        exact ih (n / 10) (by omega) c h1

theorem natDigitsRevAux_val (fuel : Nat) :
    ∀ n acc, n < fuel →
      digitsFold acc (natDigitsRevAux fuel n).reverse =
        acc * 10 ^ (natDigitsRevAux fuel n).length + n := by
  induction fuel with
  | zero => intro n acc h; omega
  | succ f ih =>
    intro n acc h
    unfold natDigitsRevAux
    by_cases h10 : n < 10
    · rw [if_pos h10]
      simp only [List.reverse_singleton, digitsFold, List.foldl_cons,
        List.foldl_nil, List.length_singleton, pow_one]
      rw [ofNat_digit_toNat n h10]
      omega
    · rw [if_neg h10]
      have hdiv : n / 10 < n := Nat.div_lt_self (by omega) (by omega)
      have hrec := ih (n / 10) acc (by omega)
      simp only [List.reverse_cons, digitsFold, List.foldl_append,
        List.foldl_cons, List.foldl_nil, List.length_cons]
      simp only [digitsFold] at hrec
      rw [hrec, ofNat_digit_toNat (n % 10) (Nat.mod_lt _ (by omega))]
      have hmod : n % 10 + 10 * (n / 10) = n := Nat.mod_add_div n 10
      ring_nf
      omega

theorem pyStrNat_digits (n : Nat) :
    ∀ c ∈ pyStrNat n, c.isDigit = true := by
  intro c hc
  unfold pyStrNat at hc
  rw [List.mem_reverse] at hc
  exact natDigitsRevAux_digits (n + 1) n (Nat.lt_succ_self n) c hc

theorem pyStrNat_ne_nil (n : Nat) : pyStrNat n ≠ [] := by
  unfold pyStrNat
  intro h
  exact natDigitsRevAux_ne_nil (n + 1) n (Nat.lt_succ_self n)
    (by simpa using congrArg List.reverse h)

theorem pyStrNat_val (n : Nat) : digitsFold 0 (pyStrNat n) = n := by
  unfold pyStrNat
  rw [natDigitsRevAux_val (n + 1) n 0 (Nat.lt_succ_self n)]
  omega

theorem pyDigitsAux_all_digits (cs : List Char) :
    ∀ acc, (∀ c ∈ cs, c.isDigit = true) →
      pyDigitsAux cs acc = some (digitsFold acc cs) := by
  induction cs with
  | nil => intro acc _; rfl
  | cons c rest ih =>
    intro acc hall
    have hc : c.isDigit = true := hall c (List.mem_cons_self c rest)
    have hne : c ≠ '_' := by
      rintro rfl
      exact absurd hc (by decide)
    unfold pyDigitsAux
    rw [if_neg hne, if_pos hc]
    rw [ih _ (fun d hd => hall d (List.mem_cons_of_mem c hd))]
    rfl

theorem pyDigits_all_digits (c : Char) (rest : List Char)
    (hall : ∀ d ∈ c :: rest, d.isDigit = true) :
    pyDigits (c :: rest) = some (digitsFold 0 (c :: rest)) := by
  have hc : c.isDigit = true := hall c (List.mem_cons_self c rest)
  show (if c.isDigit = true then pyDigitsAux rest (c.toNat - 48) else none) =
    some (digitsFold 0 (c :: rest))
  rw [if_pos hc,
    pyDigitsAux_all_digits rest _ (fun d hd => hall d (List.mem_cons_of_mem c hd))]
  simp [digitsFold]

theorem isPyWs_eq_false_of_isDigit (c : Char) (h : c.isDigit = true) :
    isPyWs c = false := by
  unfold isPyWs
  simp only [Bool.or_eq_false_iff, decide_eq_false_iff_not]
  refine ⟨⟨⟨⟨⟨?_, ?_⟩, ?_⟩, ?_⟩, ?_⟩, ?_⟩ <;>
    · rintro rfl
      exact absurd h (by decide)

theorem dropWhile_eq_self_of_all_neg {p : Char → Bool} (l : List Char)
    (h : ∀ c ∈ l, p c = false) : l.dropWhile p = l := by
  cases l with
  | nil => rfl
  | cons c rest =>
    rw [List.dropWhile_cons_of_neg]
    simp [h c (List.mem_cons_self c rest)]

theorem stripWs_eq_self (s : List Char) (h : ∀ c ∈ s, isPyWs c = false) :
    ((s.dropWhile isPyWs).reverse.dropWhile isPyWs).reverse = s := by
  rw [dropWhile_eq_self_of_all_neg s h,
    dropWhile_eq_self_of_all_neg s.reverse
      (fun c hc => h c (List.mem_reverse.mp hc)),
    List.reverse_reverse]

theorem ne_of_isDigit (c : Char) (h : c.isDigit = true) :
    c ≠ '-' ∧ c ≠ '+' ∧ c ≠ '_' := by
  refine ⟨?_, ?_, ?_⟩ <;>
    · rintro rfl
      exact absurd h (by decide)

theorem pyInt_pyStrNat (n : Nat) : pyInt (pyStrNat n) = some (n : Int) := by
  unfold pyInt
  rw [stripWs_eq_self _
    (fun c hc => isPyWs_eq_false_of_isDigit c (pyStrNat_digits n c hc))]
  rcases hrep : pyStrNat n with _ | ⟨c, rest⟩
  · exact absurd hrep (pyStrNat_ne_nil n)
  · have hall : ∀ d ∈ c :: rest, d.isDigit = true := by
      rw [← hrep]; exact pyStrNat_digits n
    have hc := hall c (List.mem_cons_self c rest)
    have hne := ne_of_isDigit c hc
    show (if c = '-' then (pyDigits rest).map (fun j => -(j : Int))
      else if c = '+' then (pyDigits rest).map (fun j => (j : Int))
      else (pyDigits (c :: rest)).map (fun j => (j : Int))) = some (n : Int)
    rw [if_neg hne.1, if_neg hne.2.1, pyDigits_all_digits c rest hall]
    have := pyStrNat_val n
    rw [hrep] at this
    rw [this]
    rfl

theorem pyInt_pyStr (k : Int) : pyInt (pyStr k) = some k := by
  cases k with
  | ofNat n => exact pyInt_pyStrNat n
  | negSucc m =>
    show pyInt ('-' :: pyStrNat (m + 1)) = some (Int.negSucc m)
    unfold pyInt
    rw [stripWs_eq_self _ ?hws]
    case hws =>
      intro c hc
      rcases List.mem_cons.mp hc with h1 | h1
      · subst h1; decide
      · exact isPyWs_eq_false_of_isDigit c (pyStrNat_digits (m + 1) c h1)
    show (pyDigits (pyStrNat (m + 1))).map (fun j => -(j : Int)) =
      some (Int.negSucc m)
    rcases hrep : pyStrNat (m + 1) with _ | ⟨c, rest⟩
    · exact absurd hrep (pyStrNat_ne_nil (m + 1))
    · have hall : ∀ d ∈ c :: rest, d.isDigit = true := by
        rw [← hrep]; exact pyStrNat_digits (m + 1)
      rw [pyDigits_all_digits c rest hall]
      have := pyStrNat_val (m + 1)
      rw [hrep] at this
      rw [this]
      simp [Int.negSucc_eq]

/-- Every character of `str(k)` is a decimal digit or the minus sign. -/
theorem pyStr_chars (k : Int) :
    ∀ c ∈ pyStr k, c.isDigit = true ∨ c = '-' := by
  intro c hc
  cases k with
  | ofNat n => exact Or.inl (pyStrNat_digits n c hc)
  | negSucc m =>
    rcases List.mem_cons.mp hc with h1 | h1
    · exact Or.inr h1
    · exact Or.inl (pyStrNat_digits (m + 1) c h1)

/-! ### Helper lemmas: split/join and partition -/

theorem splitSep_cons (sep c : Char) (rest : List Char) :
    splitSep sep (c :: rest) =
      match splitSep sep rest with
      | [] => [[]]
      | fld :: flds =>
        if c = sep then [] :: fld :: flds else (c :: fld) :: flds := rfl

theorem splitSep_ne_nil (sep : Char) (l : List Char) : splitSep sep l ≠ [] := by
  cases l with
  | nil => simp [splitSep]
  | cons c rest =>
    rw [splitSep_cons]
    cases hsplit : splitSep sep rest with
    | nil => simp
    | cons fld flds => by_cases hcs : c = sep <;> simp [hcs]

theorem splitSep_no_sep (sep : Char) (f : List Char) (hf : sep ∉ f) :
    splitSep sep f = [f] := by
  induction f with
  | nil => rfl
  | cons c rest ih =>
    have hc : c ≠ sep := fun h => hf (h ▸ List.mem_cons_self c rest)
    have hrest : sep ∉ rest := fun h => hf (List.mem_cons_of_mem c h)
    rw [splitSep_cons, ih hrest]
    simp [hc]

theorem splitSep_append_sep (sep : Char) (f t : List Char) (hf : sep ∉ f) :
    splitSep sep (f ++ sep :: t) = f :: splitSep sep t := by
  induction f with
  | nil =>
    simp only [List.nil_append]
    rw [splitSep_cons]
    cases hsplit : splitSep sep t with
    | nil => exact absurd hsplit (splitSep_ne_nil sep t)
    | cons fld flds => simp
  | cons c rest ih =>
    have hc : c ≠ sep := fun h => hf (h ▸ List.mem_cons_self c rest)
    have hrest : sep ∉ rest := fun h => hf (List.mem_cons_of_mem c h)
    simp only [List.cons_append]
    rw [splitSep_cons, ih hrest]
    simp [hc]

theorem splitSep_joinSep (sep : Char) (fields : List (List Char))
    (hne : fields ≠ []) (hsep : ∀ f ∈ fields, sep ∉ f) :
    splitSep sep (joinSep sep fields) = fields := by
  induction fields with
  | nil => exact absurd rfl hne
  | cons f fs ih =>
    cases fs with
    | nil =>
      show splitSep sep (joinSep sep [f]) = [f]
      exact splitSep_no_sep sep f (hsep f (List.mem_cons_self f []))
    | cons g gs =>
      show splitSep sep (f ++ sep :: joinSep sep (g :: gs)) = f :: g :: gs
      rw [splitSep_append_sep sep f _ (hsep f (by simp))]
      rw [ih (by simp) (fun x hx => hsep x (List.mem_cons_of_mem f hx))]

theorem pyPartition_append (sep : Char) (d t : List Char) (hd : sep ∉ d) :
    pyPartition sep (d ++ sep :: t) = (d, t, true) := by
  induction d with
  | nil => simp [pyPartition]
  | cons c rest ih =>
    have hc : c ≠ sep := fun h => hd (h ▸ List.mem_cons_self c rest)
    have hrest : sep ∉ rest := fun h => hd (List.mem_cons_of_mem c h)
    simp only [List.cons_append]
    unfold pyPartition
    rw [if_neg hc, ih hrest]

theorem decodeRecord_encodeRecord (p : List Char × Int)
    (hd : unitSeparator ∉ p.1) :
    decodeRecord (encodeRecord p) = Except.ok p := by
  unfold decodeRecord encodeRecord
  rw [pyPartition_append unitSeparator p.1 (pyStr p.2) hd]
  simp [pyInt_pyStr p.2]

theorem decodeRecords_map_encode (pairs : List (List Char × Int))
    (hd : ∀ p ∈ pairs, unitSeparator ∉ p.1) :
    decodeRecords (pairs.map encodeRecord) = Except.ok pairs := by
  induction pairs with
  | nil => rfl
  | cons p ps ih =>
    simp only [List.map_cons]
    unfold decodeRecords
    rw [decodeRecord_encodeRecord p (hd p (by simp)),
      ih (fun q hq => hd q (List.mem_cons_of_mem p hq))]

theorem recordSeparator_not_mem_encodeRecord (p : List Char × Int)
    (hd : recordSeparator ∉ p.1) : recordSeparator ∉ encodeRecord p := by
  unfold encodeRecord
  intro h
  rcases List.mem_append.mp h with h1 | h1
  · exact hd h1
  · rcases List.mem_cons.mp h1 with h2 | h2
    · exact absurd h2 (by decide)
    · rcases pyStr_chars p.2 _ h2 with h3 | h3
      · exact absurd h3 (by decide)
      · exact absurd h3 (by decide)

theorem encodeRecord_ne_nil (p : List Char × Int) : encodeRecord p ≠ [] := by
  unfold encodeRecord
  simp

theorem toEnvironment_eq_map (pairs : List (List Char × Int)) :
    toEnvironment pairs = joinSep recordSeparator (pairs.map encodeRecord) := rfl

/-! ### Helper lemmas: the request gate -/

theorem makeServiceGate_inv (maximumRequests : Int) :
    GateInv (makeServiceGate maximumRequests) := by
  constructor <;> simp [makeServiceGate, notifyFinish, initResource, GateInv]

theorem step_preserves_inv (s : GateState) (e : Ev) (he : e ≠ Ev.subscribe)
    (h : GateInv s) : GateInv (step s e) := by
  obtain ⟨h1, h2⟩ := h
  cases e with
  | subscribe => exact absurd rfl he
  | complete =>
    simp only [step, decrementInFlight, noPendingRequests]
    split_ifs <;> exact ⟨h1, h2⟩
  | render =>
    simp only [step, render, finishing]
    split_ifs with htrip
    · exact ⟨by simpa using h1, by simp [h1]⟩
    · exact ⟨h1, h2⟩

theorem run_inv_gen :
    ∀ es : List Ev, Ev.subscribe ∉ es → ∀ s, GateInv s → GateInv (run s es) := by
  intro es
  induction es with
  | nil => intro _ s hs; exact hs
  | cons e es ih =>
    intro hsub s hs
    have he : e ≠ Ev.subscribe := fun h => hsub (h ▸ List.mem_cons_self e es)
    have hes : Ev.subscribe ∉ es := fun h => hsub (List.mem_cons_of_mem e h)
    exact ih hes (step s e) (step_preserves_inv s e he hs)

theorem run_inv (maximumRequests : Int) (es : List Ev)
    (hsub : Ev.subscribe ∉ es) :
    GateInv (run (makeServiceGate maximumRequests) es) :=
  run_inv_gen es hsub _ (makeServiceGate_inv maximumRequests)

theorem run_append_single (s : GateState) (es : List Ev) (e : Ev) :
    run s (es ++ [e]) = step (run s es) e := by
  simp [run, List.foldl_append]

theorem run_replicate_render (N : Int) :
    ∀ k : Nat,
      (run (makeServiceGate N) (List.replicate k Ev.render)).maximumRequests = N ∧
      (run (makeServiceGate N) (List.replicate k Ev.render)).requests = k ∧
      ((run (makeServiceGate N) (List.replicate k Ev.render)).stopping = true ↔
        1 ≤ k ∧ N ≤ (k : Int)) := by
  intro k
  induction k with
  | zero =>
    refine ⟨rfl, rfl, ?_⟩
    simp [run, makeServiceGate, notifyFinish, initResource]
  | succ k ih =>
    obtain ⟨hmax, hreq, hstop⟩ := ih
    rw [List.replicate_succ', run_append_single]
    simp only [step, render, finishing]
    split_ifs with htrip
    · rw [hmax, hreq] at htrip
      refine ⟨hmax, by rw [hreq], ?_⟩
      constructor
      · intro _
        omega
      · intro _
        rfl
    · rw [hmax, hreq] at htrip
      refine ⟨hmax, by rw [hreq], ?_⟩
      show (run (makeServiceGate N) (List.replicate k Ev.render)).stopping = true ↔ _
      rw [hstop]
      omega

/-! ### Helper lemmas: malformed records and the listener services -/

theorem pyPartition_not_found_after (sep : Char) (l : List Char) :
    (pyPartition sep l).2.2 = false → (pyPartition sep l).2.1 = [] := by
  induction l with
  | nil => intro _; rfl
  | cons c rest ih =>
    simp only [pyPartition]
    split_ifs with hc
    · simp
    · simpa using ih

theorem decodeRecords_error (rs : List (List Char)) (r : List Char)
    (hmem : r ∈ rs)
    (herr : decodeRecord r = Except.error MalformedHandoffRecord.valueError) :
    decodeRecords rs = Except.error MalformedHandoffRecord.valueError := by
  induction rs with
  | nil => exact absurd hmem (List.not_mem_nil r)
  | cons hd tl ih =>
    unfold decodeRecords
    cases hd2 : decodeRecord hd with
    | error e => cases e; rfl
    | ok p =>
      rcases List.mem_cons.mp hmem with h1 | h1
      · subst h1
        rw [hd2] at herr
        exact absurd herr (by simp)
      · rw [ih h1]

theorem lstep_preserves_not_closed (s : ListenersServiceState) (op : LOp)
    (h : s.listenersClosed = false) : (lstep s op).listenersClosed = false := by
  cases op with
  | stopAccepting => exact h
  | stopService =>
    simp only [lstep, stopService]
    split_ifs <;> exact h

theorem lrun_not_closed (ops : List LOp) : (lrun ops).listenersClosed = false := by
  suffices hgen : ∀ s, s.listenersClosed = false →
      (ops.foldl lstep s).listenersClosed = false from hgen initListeners rfl
  induction ops with
  | nil => intro s hs; exact hs
  | cons op ops ih =>
    intro s hs
    exact ih (lstep s op) (lstep_preserves_not_closed s op hs)

/-! ### Claim theorems -/

/-- Claim C1, counterexample: with maximum 1, rendering a single request
fires the one-shot completion notification (the `makeService` `respawn`
subscription) during `render` itself, while the in-flight count is still
1 > 0 — the notification does not wait for a completion to bring the
in-flight count to zero.  This falsifies the claim that the notification
is never fired while the in-flight count is greater than zero. -/
theorem drain_notification_counterexample :
    1 ≤ (run (makeServiceGate 1) [Ev.render]).firedNotifications ∧
    0 < (run (makeServiceGate 1) [Ev.render]).inFlight := by decide

/-- Claim C1 (amended): in every reactor run whose only `notifyFinish`
subscription is the one made by `makeService`, the one-shot notification
has fired exactly when the quota-exceeded flag is set — it fires
synchronously inside the `render` that trips the quota, while the
in-flight count is positive, not at drain time.  What happens when a
request completion brings the in-flight count to zero with the quota
exceeded is `reactor.stop()`: a completion event sets `reactorStopped`
exactly when the flag is set and the in-flight count was 1, a render
event never sets it, and once the flag is set a late subscriber receives
an already-resolved notification immediately. -/
theorem drain_notification_amended (N : Int) (es : List Ev)
    (hsub : Ev.subscribe ∉ es) :
    (1 ≤ (run (makeServiceGate N) es).firedNotifications ↔
      (run (makeServiceGate N) es).stopping = true) ∧
    ((step (run (makeServiceGate N) es) Ev.complete).reactorStopped = true ↔
      ((run (makeServiceGate N) es).reactorStopped = true ∨
        ((run (makeServiceGate N) es).stopping = true ∧
          (run (makeServiceGate N) es).inFlight = 1))) ∧
    ((step (run (makeServiceGate N) es) Ev.render).reactorStopped =
      (run (makeServiceGate N) es).reactorStopped) ∧
    ((run (makeServiceGate N) es).stopping = true →
      (notifyFinish (run (makeServiceGate N) es)).2 = true) := by
  obtain ⟨h1, h2⟩ := run_inv N es hsub
  refine ⟨?_, ?_, ?_, ?_⟩
  · constructor
    · intro hf
      exact h2.mpr (by omega)
    · intro hs
      have := h2.mp hs
      omega
  · simp only [step, decrementInFlight, noPendingRequests]
    split_ifs with hz hstop
    · constructor
      · intro _
        exact Or.inr ⟨hstop, by omega⟩
      · intro _
        rfl
    · simp only [Bool.not_eq_true] at hstop
      simp [hstop]
    · constructor
      · intro hr
        exact Or.inl hr
      · rintro (hr | ⟨_, hi⟩)
        · exact hr
        · exact absurd (by omega : (run (makeServiceGate N) es).inFlight - 1 = 0) hz
  · simp only [step, render, finishing]
    split_ifs <;> rfl
  · intro hs
    simp [notifyFinish, hs]

theorem drain_notification_amended_witness :
    Ev.subscribe ∉ [Ev.render] ∧
    (1 ≤ (run (makeServiceGate 1) [Ev.render]).firedNotifications ↔
      (run (makeServiceGate 1) [Ev.render]).stopping = true) :=
  ⟨by decide, (drain_notification_amended 1 [Ev.render] (by decide)).1⟩

/-- Claim C2, counterexample: with configured maximum 2, after the second
counted request the quota flag is already set even though the total
number of requests counted (2) does not exceed the configured maximum
(2).  The code trips at `_requests > _maximumRequests - 1`, i.e. on the
Nth request, not the (N+1)th. -/
theorem quota_threshold_counterexample :
    (run (makeServiceGate 2) [Ev.render, Ev.render]).stopping = true ∧
    ¬(((run (makeServiceGate 2) [Ev.render, Ev.render]).requests : Int) >
      (run (makeServiceGate 2) [Ev.render, Ev.render]).maximumRequests) := by
  decide

/-- Claim C2 (amended): the quota-exceeded flag is set (and the handoff
notification fired) exactly when the number of requests counted so far
is at least the configured maximum — the check is
`_requests > _maximumRequests - 1`, run synchronously right after a
request start is counted — so with configured maximum N the flag is
first set on the Nth counted request (on the first request when
N ≤ 1). -/
theorem quota_threshold_amended (N : Int) (k : Nat) :
    ((run (makeServiceGate N) (List.replicate k Ev.render)).stopping = true ↔
      1 ≤ k ∧ N ≤ (k : Int)) ∧
    ((run (makeServiceGate N) (List.replicate k Ev.render)).firedNotifications
        = 1 ↔ 1 ≤ k ∧ N ≤ (k : Int)) := by
  have hsub : Ev.subscribe ∉ List.replicate k Ev.render := by
    intro h
    exact absurd (List.eq_of_mem_replicate h) (by decide)
  obtain ⟨-, -, hstop⟩ := run_replicate_render N k
  obtain ⟨-, h2⟩ := run_inv N (List.replicate k Ev.render) hsub
  exact ⟨hstop, h2.symm.trans hstop⟩

/-- Claim C3: decoding the environment value produced by encoding a
listener set whose descriptions contain neither separator byte yields
the same set, position for position. -/
theorem listeners_roundtrip (s : List (List Char × Int))
    (h : ∀ p ∈ s, unitSeparator ∉ p.1 ∧ recordSeparator ∉ p.1) :
    fromEnvironment (some (toEnvironment s)) = Except.ok s := by
  cases s with
  | nil => rfl
  | cons p ps =>
    rw [toEnvironment_eq_map]
    have hne : joinSep recordSeparator ((p :: ps).map encodeRecord) ≠ [] := by
      rw [List.map_cons]
      cases hps : ps.map encodeRecord with
      | nil => exact encodeRecord_ne_nil p
      | cons g gs =>
        show encodeRecord p ++ recordSeparator :: joinSep recordSeparator (g :: gs) ≠ []
        simp
    have hsepAll : ∀ f ∈ (p :: ps).map encodeRecord, recordSeparator ∉ f := by
      intro f hf
      rcases List.mem_map.mp hf with ⟨q, hq, rfl⟩
      exact recordSeparator_not_mem_encodeRecord q (h q hq).2
    simp only [fromEnvironment]
    rw [if_neg hne, splitSep_joinSep recordSeparator _ (by simp) hsepAll]
    exact decodeRecords_map_encode _ (fun q hq => (h q hq).1)

theorem listeners_roundtrip_witness :
    (∀ p ∈ [("tcp:8080".toList, (5 : Int)), ("unix:/tmp/s".toList, (7 : Int))],
      unitSeparator ∉ p.1 ∧ recordSeparator ∉ p.1) ∧
    fromEnvironment (some (toEnvironment
        [("tcp:8080".toList, (5 : Int)), ("unix:/tmp/s".toList, (7 : Int))])) =
      Except.ok [("tcp:8080".toList, (5 : Int)), ("unix:/tmp/s".toList, (7 : Int))] :=
  ⟨by decide,
    listeners_roundtrip
      [("tcp:8080".toList, 5), ("unix:/tmp/s".toList, 7)] (by decide)⟩

/-- Claim C4: every `render` call — in particular the one that trips the
quota — dispatches to the wrapped application and returns its response
unchanged; no request is rejected at the dispatch level.  The only
refusal mechanism the tripping branch engages is a call to the listener
set's `stopAccepting`. -/
theorem render_always_dispatches {α β : Type} (s : GateState)
    (app : α → β) (req : α) :
    (render s app req).2 = app req ∧
    (render s app req).1.stopAcceptingCalls =
      (if ((s.requests + 1 : Nat) : Int) > s.maximumRequests - 1
        then s.stopAcceptingCalls + 1 else s.stopAcceptingCalls) := by
  simp only [render, finishing]
  split_ifs <;> exact ⟨rfl, rfl⟩

/-- Claim C5: in every reactor run whose only `notifyFinish`
subscription is the single one `makeService` installs (the `respawn`
hook), the number of times that hook has been fired is exactly one once
the quota has tripped and zero before — re-executions of the
quota-trigger branch in later renders never fire it again. -/
theorem handoff_fired_once (N : Int) (es : List Ev)
    (hsub : Ev.subscribe ∉ es) :
    (run (makeServiceGate N) es).firedNotifications =
      if (run (makeServiceGate N) es).stopping = true then 1 else 0 := by
  obtain ⟨h1, h2⟩ := run_inv N es hsub
  split_ifs with hs
  · exact h2.mp hs
  · have hne : ¬((run (makeServiceGate N) es).firedNotifications = 1) :=
      fun hf => hs (h2.mpr hf)
    omega

theorem handoff_fired_once_witness :
    Ev.subscribe ∉ [Ev.render, Ev.render, Ev.render] ∧
    (run (makeServiceGate 1) [Ev.render, Ev.render, Ev.render]).firedNotifications =
      if (run (makeServiceGate 1) [Ev.render, Ev.render, Ev.render]).stopping = true
        then 1 else 0 :=
  ⟨by decide, handoff_fired_once 1 [Ev.render, Ev.render, Ev.render] (by decide)⟩

/-- Claim C6: an absent or empty handoff environment value decodes to
the empty collection without error, and `makeService` then builds the
fresh (bind-and-listen) `LivelyListenersService` rather than the adopted
one. -/
theorem empty_environment_fresh :
    fromEnvironment none = Except.ok [] ∧
    fromEnvironment (some []) = Except.ok [] ∧
    chooseListeners none = ServiceChoice.fresh ∧
    chooseListeners (some []) = ServiceChoice.fresh :=
  ⟨rfl, rfl, rfl, rfl⟩

/-- Claim C7: a nonempty environment value one of whose records is
malformed — it lacks the field separator, or its file-descriptor field
does not parse as an integer — makes `fromEnvironment` fail with the
`ValueError` from `int(...)` (the spec's `MalformedHandoffRecord`)
rather than silently dropping the record or any of its fields. -/
theorem malformed_record_fails (value r : List Char) (hval : value ≠ [])
    (hmem : r ∈ splitSep recordSeparator value)
    (hmal : (pyPartition unitSeparator r).2.2 = false ∨
      pyInt (pyPartition unitSeparator r).2.1 = none) :
    fromEnvironment (some value) =
      Except.error MalformedHandoffRecord.valueError := by
  have herr : decodeRecord r = Except.error MalformedHandoffRecord.valueError := by
    have hnone : pyInt (pyPartition unitSeparator r).2.1 = none := by
      rcases hmal with hfound | hnone2
      · rw [pyPartition_not_found_after unitSeparator r hfound]
        rfl
      · exact hnone2
    simp only [decodeRecord]
    rw [hnone]
  simp only [fromEnvironment]
  rw [if_neg hval]
  exact decodeRecords_error _ r hmem herr

theorem malformed_record_fails_witness :
    ("abc".toList ≠ ([] : List Char)) ∧
    "abc".toList ∈ splitSep recordSeparator "abc".toList ∧
    (pyPartition unitSeparator "abc".toList).2.2 = false ∧
    fromEnvironment (some "abc".toList) =
      Except.error MalformedHandoffRecord.valueError :=
  ⟨by decide, by decide, by decide,
    malformed_record_fails "abc".toList "abc".toList (by decide) (by decide)
      (Or.inl (by decide))⟩

/-- Claim C8: the environment `respawn` hands to the successor process
equals the current process environment at every key other than the
handoff variable, whose value is the encoding of the captured listener
set; and `pass_fds` lists every captured file descriptor, preserving
them across the spawn boundary. -/
theorem respawn_frame (environment : List Char → Option (List Char))
    (pairs : List (List Char × Int)) :
    (respawn environment pairs).childEnv handoffVariable =
      some (toEnvironment pairs) ∧
    (∀ k, k ≠ handoffVariable →
      (respawn environment pairs).childEnv k = environment k) ∧
    (respawn environment pairs).passFds = pairs.map Prod.snd := by
  refine ⟨by simp [respawn], ?_, rfl⟩
  intro k hk
  simp [respawn, hk]

/-- A concrete sample process environment for the `respawn_frame`
witness. -/
def sampleEnv : List Char → Option (List Char) :=
  fun k => if k = "PATH".toList then some "/bin".toList else none

theorem respawn_frame_witness :
    (respawn sampleEnv [("tcp:8080".toList, 5)]).childEnv "PATH".toList =
      sampleEnv "PATH".toList :=
  (respawn_frame sampleEnv [("tcp:8080".toList, 5)]).2.1 "PATH".toList (by decide)

/-- Claim C9: once `stopAccepting` has marked a listener service (fresh
or adopted — the two method bodies are identical) as released, a
subsequent `stopService` is a no-op and in particular never closes the
listening descriptors; and in every reachable service state no listener
is both closed and handed off, since no code path closes a listening
descriptor at all. -/
theorem stopService_after_handoff (s : ListenersServiceState)
    (h : s.released = true) :
    stopService s = s ∧
    ∀ ops : List LOp,
      ¬((lrun ops).listenersClosed = true ∧ (lrun ops).released = true) := by
  constructor
  · unfold stopService
    rw [h]
    simp
  · rintro ops ⟨hc, -⟩
    rw [lrun_not_closed ops] at hc
    exact Bool.false_ne_true hc

theorem stopService_after_handoff_witness :
    (stopAccepting initListeners).released = true ∧
    stopService (stopAccepting initListeners) = stopAccepting initListeners :=
  ⟨by decide,
    (stopService_after_handoff (stopAccepting initListeners) (by decide)).1⟩

/-- Claim C10: for a configured maximum of at most 1 (including 0 and
negative values), the very first request already trips the
quota-exceeded branch — the check compares the count against
`maximum - 1` — and that first request is still dispatched to the
application, its response returned. -/
theorem low_maximum_first_request_trips (N : Int) (hN : N ≤ 1)
    {α β : Type} (app : α → β) (req : α) :
    (render (makeServiceGate N) app req).1.stopping = true ∧
    (render (makeServiceGate N) app req).2 = app req := by
  constructor
  · simp only [render, finishing]
    split_ifs with htrip
    · rfl
    · exfalso
      simp [makeServiceGate, notifyFinish, initResource] at htrip
      omega
  · simp only [render, finishing]
    split_ifs <;> rfl

theorem low_maximum_first_request_trips_witness :
    ((0 : Int) ≤ 1) ∧
    ((render (makeServiceGate 0) Nat.succ 0).1.stopping = true ∧
      (render (makeServiceGate 0) Nat.succ 0).2 = Nat.succ 0) :=
  ⟨by decide, low_maximum_first_request_trips 0 (by decide) Nat.succ 0⟩

end MaxRequests
